import Mathlib

/-!
Verification of the dolt JSON comparator (`go/store/types`, JSONDoc) and the
AUTO_INCREMENT tracker (`go/libraries/doltcore/sqle/dsess`).

JSON inner values are modelled as a tagged sum over the six JSON-representable
noms kinds.  Go `float64` payloads are modelled as `Option ℚ`: `none` is NaN
(every Go `<`/`>` comparison against NaN is false), `some q` is an ordered
non-NaN double.  Strings use Lean strings; Go compares UTF-8 bytes, which
agrees with codepoint order.  noms `Map` values store their entries sorted by
key, so an object is carried as its entry list.
-/

namespace DoltSpec

/-- An inner JSON value: the JSON-representable noms kinds. -/
inductive Value where
  | null : Value
  | bool (b : Bool) : Value
  | float (x : Option ℚ) : Value
  | str (s : String) : Value
  | list (xs : List Value) : Value
  | map (entries : List (String × Value)) : Value
deriving Repr

/-- Mirrors `a.Kind() == NullKind`. -/
def Value.isNull : Value → Bool
  | .null => true
  | _ => false

/-- Go `strings.Compare`: -1, 0 or +1 by lexicographic order. -/
def stringsCompare (a b : String) : Int :=
  if a < b then -1 else if b < a then 1 else 0

/-- Go `>` on float64: false whenever either operand is NaN (`none`). -/
def floatGt : Option ℚ → Option ℚ → Bool
  | some x, some y => x > y
  | _, _ => false

/-- Go `<` on float64: false whenever either operand is NaN (`none`). -/
def floatLt : Option ℚ → Option ℚ → Bool
  | some x, some y => x < y
  | _, _ => false

/-- Embeds `compareJSONBool` (types/json_document source): bool-vs-bool is
false < true, and a Bool is higher precedence than any other non-null kind. -/
def compareJSONBool (a : Bool) (b : Value) : Except String Int :=
  match b with
  | .bool b' =>
    if a = b' then .ok 0
    else if a then .ok 1
    else .ok (-1)
  | _ => .ok 1

/-- Embeds `compareJSONString`: below Bool, List and Map, above Float;
string-vs-string is `strings.Compare`. -/
def compareJSONString (a : String) (b : Value) : Except String Int :=
  match b with
  | .bool _ => .ok (-1)
  | .list _ => .ok (-1)
  | .map _ => .ok (-1)
  | .str b' => .ok (stringsCompare a b')
  | _ => .ok 1

/-- Embeds `compareJSONNumber`: below Bool, List, Map and String; number-vs-
number uses Go float64 `>` then `<` (a NaN operand falls through to 0). -/
def compareJSONNumber (a : Option ℚ) (b : Value) : Except String Int :=
  match b with
  | .bool _ => .ok (-1)
  | .list _ => .ok (-1)
  | .map _ => .ok (-1)
  | .str _ => .ok (-1)
  | .float b' =>
    if floatGt a b' then .ok 1
    else if floatLt a b' then .ok (-1)
    else .ok 0
  | _ => .ok 1

mutual

/-- Embeds `compareJSON`: null first, then dispatch on the left kind.  The Go
default branch (a non-JSON kind) cannot arise on this carrier; the null arm of
the dispatch mirrors the Go switch default, which is unreachable because null
was already handled. -/
def compareJSON (a b : Value) : Except String Int :=
  if a.isNull && b.isNull then .ok 0
  else if a.isNull && !b.isNull then .ok (-1)
  else if !a.isNull && b.isNull then .ok 1
  else
    match a with
    | .bool ab => compareJSONBool ab b
    | .list xs => compareJSONArray xs b
    | .map es => compareJSONObject es b
    | .str s => compareJSONString s b
    | .float x => compareJSONNumber x b
    | .null => .error "unexpected type"
termination_by sizeOf a + sizeOf b

/-- Embeds `compareJSONArray`: below Bool, above everything else; array-vs-
array asks `a.Less(b)` then `b.Less(a)`. -/
def compareJSONArray (xs : List Value) (b : Value) : Except String Int :=
  match b with
  | .bool _ => .ok (-1)
  | .list ys =>
    if listLess xs ys then .ok (-1)
    else if listLess ys xs then .ok 1
    else .ok 0
  | _ => .ok 1
termination_by sizeOf xs + sizeOf b

/-- Embeds `compareJSONObject`: below Bool and List, above String and Float;
map-vs-map asks `a.Less(b)` then `b.Less(a)`. -/
def compareJSONObject (es : List (String × Value)) (b : Value) : Except String Int :=
  match b with
  | .bool _ => .ok (-1)
  | .list _ => .ok (-1)
  | .map fs =>
    if pairsLess es fs then .ok (-1)
    else if pairsLess fs es then .ok 1
    else .ok 0
  | _ => .ok 1
termination_by sizeOf es + sizeOf b

/-- Modelled from the spec: noms `List.Less` is not under src (only its caller
`compareJSONArray` is).  Spec 4.3(3): arrays compare lexicographically by the
first differing position via this comparator, and a proper prefix is lesser.
A comparator error (impossible on the JSON carrier) makes the call not-less. -/
def listLess : List Value → List Value → Bool
  | [], [] => false
  | [], _ :: _ => true
  | _ :: _, [] => false
  | x :: xs, y :: ys =>
    match compareJSON x y with
    | .ok c => if c < 0 then true else if 0 < c then false else listLess xs ys
    | .error _ => false
termination_by xs ys => sizeOf xs + sizeOf ys

/-- Modelled from the spec: noms `Map.Less` is not under src (only its caller
`compareJSONObject` is).  Spec 4.3(4): objects compare as a sequence of
(key, value) pairs sorted by key — noms maps already store entries in key
order — with keys compared as strings and values via this comparator. -/
def pairsLess : List (String × Value) → List (String × Value) → Bool
  | [], [] => false
  | [], _ :: _ => true
  | _ :: _, [] => false
  | (k1, v1) :: es, (k2, v2) :: fs =>
    if stringsCompare k1 k2 < 0 then true
    else if 0 < stringsCompare k1 k2 then false
    else
      match compareJSON v1 v2 with
      | .ok c => if c < 0 then true else if 0 < c then false else pairsLess es fs
      | .error _ => false
termination_by es fs => sizeOf es + sizeOf fs

end

/-! ## JSON documents -/

/-- A JSON document: the JSONDoc envelope holds zero or one inner values
(count 0 is the empty document, count 1 a populated one). -/
structure JSONDoc where
  contents : Option Value
deriving Repr

/-- Embeds `EmptyJSONDoc`: the kind tag followed by count 0. -/
def EmptyJSONDoc : JSONDoc := ⟨none⟩

/-- Embeds `NewJSONDoc`: the kind tag, count 1, then the inner value.  The Go
writer error paths do not arise on this in-memory model. -/
def NewJSONDoc (value : Value) : JSONDoc := ⟨some value⟩

/-- The envelope count written after the kind tag: 0 or 1. -/
def JSONDoc.count : JSONDoc → Nat
  | ⟨none⟩ => 0
  | ⟨some _⟩ => 1

/-- Embeds `JSONDoc.Len`: the Go method body is `return 1`. -/
def JSONDoc.Len (_ : JSONDoc) : Nat := 1

/-- Embeds `JSONDoc.Empty`: the Go method body is `return t.Len() == 0`. -/
def JSONDoc.Empty (t : JSONDoc) : Bool := t.Len == 0

/-! ## AutoIncrement tracker

The tracker's `sequences` map is an association list with unique keys; a Go
map read of a missing key yields the zero value 0.  Collaborators (roots,
tables, refs, working sets) are oracle records whose fields hold the outcomes
of the reads the tracker performs; `Except String` mirrors Go's `error`
returns (a cancelled context surfaces as such an error).  Counters are uint64,
modelled as `Nat` reduced mod 2^64 where the Go code increments. -/

abbrev Sequences := List (String × Nat)

/-- 2^64: the modulus of Go uint64 arithmetic. -/
def u64Mod : Nat := 2 ^ 64

/-- Go `strings.ToLower` as the tracker applies it to table names.  Go
lowercases Unicode; `Char.toLower` lowercases the ASCII letters, which agrees
with Go on ASCII table names. -/
def goToLower (s : String) : String := ⟨s.data.map Char.toLower⟩

/-- Go map read: the zero value 0 when the key is absent. -/
def seqGet (s : Sequences) (k : String) : Nat := (s.lookup k).getD 0

/-- Go two-valued map read: whether the key is present. -/
def seqMem (s : Sequences) (k : String) : Bool := (s.lookup k).isSome

/-- Go map assignment: replace the key's entry or add one. -/
def seqSet : Sequences → String → Nat → Sequences
  | [], k, v => [(k, v)]
  | (k', v') :: rest, k, v =>
    if k' = k then (k, v) :: rest else (k', v') :: seqSet rest k v

/-- A schema, reduced to the one question the tracker asks of it. -/
structure Schema where
  hasAutoIncrement : Bool
deriving Repr

/-- A table oracle: the outcomes of the two reads the tracker performs. -/
structure Table where
  getSchema : Except String Schema
  getAutoIncrementValue : Except String Nat

/-- One table as enumerated by `Root.IterTables`, which hands the callback the
name, the table and its schema. -/
structure TableEntry where
  name : String
  table : Table
  sch : Schema

/-- A root value oracle: the tables it enumerates and its case-insensitive
lookup. -/
structure Root where
  iterEntries : List TableEntry
  getTableInsensitive : String → Except String (Option Table)

/-- A rootish handle (commit, working set or branch ref): resolves to a root
value or fails. -/
structure Rootish where
  resolveRootValue : Except String Root

/-- A runtime value handed to `Next`.  Only the shapes the claims exercise are
carried: SQL NULL and unsigned integers.  Other runtime types go through the
external `types.Uint64.Convert`, which is not under src. -/
inductive InsertVal where
  | nullV : InsertVal
  | uintV (n : Nat) : InsertVal
deriving Repr

/-- Embeds `CoerceAutoIncrementValue` on the modelled inputs: nil converts to
the 0 sentinel, a uint64 converts to itself (reduced mod 2^64, since a Go
uint64 already is). -/
def CoerceAutoIncrementValue : InsertVal → Except String Nat
  | .nullV => .ok 0
  | .uintV n => .ok (n % u64Mod)

/-- Embeds `AutoIncrementTracker.Current`: read the lowercased key. -/
def Current (seqs : Sequences) (tableName : String) : Nat :=
  seqGet seqs (goToLower tableName)

/-- Embeds `AutoIncrementTracker.Next`: coerce the insert value, then either
generate from the sequence (coerced 0), catch the sequence up (coerced ≥
current), or hand the low value back without touching the counter. -/
def Next (seqs : Sequences) (tbl : String) (insertVal : InsertVal) :
    Except String (Nat × Sequences) :=
  let tbl := goToLower tbl
  match CoerceAutoIncrementValue insertVal with
  | .error e => .error e
  | .ok given =>
    let curr := seqGet seqs tbl
    if given = 0 then
      .ok (curr, seqSet seqs tbl ((curr + 1) % u64Mod))
    else if given ≥ curr then
      .ok (given, seqSet seqs tbl ((given + 1) % u64Mod))
    else
      .ok (given, seqs)

/-- Embeds `AutoIncrementTracker.AddNewTable`: initialize the sequence to 1
only when no entry exists for the lowercased name. -/
def AddNewTable (seqs : Sequences) (tableName : String) : Sequences :=
  let t := goToLower tableName
  if seqMem seqs t then seqs else seqSet seqs t 1

/-- Embeds the callback body of `NewAutoIncrementTracker`'s `IterTables`:
skip tables without an AUTO_INCREMENT column, otherwise record the max of the
persisted value under the lowercased name, aborting on a read error. -/
def initScanTable (seqs : Sequences) (e : TableEntry) : Except String Sequences :=
  if !e.sch.hasAutoIncrement then .ok seqs
  else
    let tableName := goToLower e.name
    match e.table.getAutoIncrementValue with
    | .error err => .error err
    | .ok seq =>
      if seq > seqGet seqs tableName then .ok (seqSet seqs tableName seq)
      else .ok seqs

/-- `IterTables` over one root: visit each table in order, stopping at the
first erroring callback. -/
def initScanTables : Sequences → List TableEntry → Except String Sequences
  | seqs, [] => .ok seqs
  | seqs, e :: rest =>
    match initScanTable seqs e with
    | .error err => .error err
    | .ok s => initScanTables s rest

/-- The root loop of `NewAutoIncrementTracker`: resolve each rootish and walk
its tables, aborting on the first error. -/
def initScanRoots : Sequences → List Rootish → Except String Sequences
  | seqs, [] => .ok seqs
  | seqs, r :: rest =>
    match r.resolveRootValue with
    | .error e => .error e
    | .ok root =>
      match initScanTables seqs root.iterEntries with
      | .error e => .error e
      | .ok s => initScanRoots s rest

/-- The tracker: a database name and the per-table sequences map. -/
structure AutoIncrementTracker where
  dbName : String
  sequences : Sequences

/-- Embeds `NewAutoIncrementTracker`: start from an empty map and scan every
supplied root, returning the first error encountered. -/
def NewAutoIncrementTracker (dbName : String) (roots : List Rootish) :
    Except String AutoIncrementTracker :=
  match initScanRoots [] roots with
  | .error e => .error e
  | .ok seqs => .ok ⟨dbName, seqs⟩

/-- The outcome of `db.ResolveWorkingSet` for a branch's working-set ref:
found, the sentinel `ErrWorkingSetNotFound`, or another error. -/
inductive WsResolution where
  | notFound
  | wsErr (e : String)
  | found (ws : Rootish)

/-- A ref returned by `GetBranches`/`GetRemoteRefs`, carrying the outcomes of
the reads `deepSet` performs on it. -/
inductive DoltRef where
  | branch (wsRefForHead : Except String String) (resolveWorkingSet : WsResolution)
      (resolveCommitRef : Except String Rootish)
  | remote (resolveCommitRef : Except String Rootish)

/-- The tail of `deepSet`'s ref loop once a rootish is chosen: resolve the
root, look the table up case-insensitively, check its schema, lowercase the
table name, and raise the running maximum with the persisted value. -/
def deepSetScanRootish (tableName : String) (maxAutoInc : Nat) (rootish : Rootish) :
    Except String (String × Nat) :=
  match rootish.resolveRootValue with
  | .error e => .error e
  | .ok root =>
    match root.getTableInsensitive tableName with
    | .error e => .error e
    | .ok none => .ok (tableName, maxAutoInc)
    | .ok (some table) =>
      match table.getSchema with
      | .error e => .error e
      | .ok sch =>
        if !sch.hasAutoIncrement then .ok (tableName, maxAutoInc)
        else
          let tableName := goToLower tableName
          match table.getAutoIncrementValue with
          | .error e => .error e
          | .ok seq =>
            if seq > maxAutoInc then .ok (tableName, seq)
            else .ok (tableName, maxAutoInc)

/-- One iteration of `deepSet`'s ref loop: pick the rootish for the ref —
skipping the working set being updated — and scan it. -/
def deepSetScanRef (ws : String) (tableName : String) (maxAutoInc : Nat) :
    DoltRef → Except String (String × Nat)
  | .branch wsRefForHead resolveWs resolveCm =>
    match wsRefForHead with
    | .error e => .error e
    | .ok wsRef =>
      if wsRef = ws then .ok (tableName, maxAutoInc)
      else
        match resolveWs with
        | .wsErr e => .error e
        | .notFound =>
          match resolveCm with
          | .error e => .error e
          | .ok cm => deepSetScanRootish tableName maxAutoInc cm
        | .found w => deepSetScanRootish tableName maxAutoInc w
  | .remote resolveCm =>
    match resolveCm with
    | .error e => .error e
    | .ok cm => deepSetScanRootish tableName maxAutoInc cm

/-- `deepSet`'s loop over the combined branch and remote refs of one dolt
database, threading the (possibly lowercased) table name and the maximum. -/
def deepSetScanRefs (ws : String) : String → Nat → List DoltRef → Except String (String × Nat)
  | tn, mx, [] => .ok (tn, mx)
  | tn, mx, r :: rest =>
    match deepSetScanRef ws tn mx r with
    | .error e => .error e
    | .ok (tn', mx') => deepSetScanRefs ws tn' mx' rest

/-- One dolt database as consulted by `deepSet`. -/
structure DoltDB where
  getBranches : Except String (List DoltRef)
  getRemoteRefs : Except String (List DoltRef)

/-- `deepSet` on one database: fetch branches, then remote refs, then scan
the concatenated ref list. -/
def deepSetScanDb (ws : String) (tn : String) (mx : Nat) (db : DoltDB) :
    Except String (String × Nat) :=
  match db.getBranches with
  | .error e => .error e
  | .ok branches =>
    match db.getRemoteRefs with
    | .error e => .error e
    | .ok remotes => deepSetScanRefs ws tn mx (branches ++ remotes)

/-- `deepSet`'s loop over the databases. -/
def deepSetScanDbs (ws : String) : String → Nat → List DoltDB → Except String (String × Nat)
  | tn, mx, [] => .ok (tn, mx)
  | tn, mx, db :: rest =>
    match deepSetScanDb ws tn mx db with
    | .error e => .error e
    | .ok (tn', mx') => deepSetScanDbs ws tn' mx' rest

/-- The session environment `deepSet` sees: whether the database was found,
whether it is versioned, and its dolt databases. -/
structure DeepSetEnv where
  dbFound : Bool
  versioned : Bool
  doltdbs : List DoltDB

/-- Embeds `AutoIncrementTracker.deepSet`.  The result pairs the sequences map
as it stands when the Go method returns with the returned error: every error
path in the Go code returns before the single assignment at the end, and the
embedding reflects where that assignment sits. -/
def deepSet (env : DeepSetEnv) (seqs : Sequences) (ws : String) (tableName : String)
    (newAutoIncVal : Nat) : Sequences × Option String :=
  if !env.dbFound || !env.versioned then (seqs, none)
  else
    match deepSetScanDbs ws tableName newAutoIncVal env.doltdbs with
    | .error e => (seqs, some e)
    | .ok (tn, maxAutoInc) => (seqSet seqs tn maxAutoInc, none)

/-- Embeds `AutoIncrementTracker.Set`: overwrite directly when the new value
beats the in-memory one, otherwise re-establish the baseline via `deepSet`. -/
def Set (env : DeepSetEnv) (seqs : Sequences) (ws : String) (tableName : String)
    (newAutoIncVal : Nat) : Sequences × Option String :=
  let tableName := goToLower tableName
  let existing := seqGet seqs tableName
  if newAutoIncVal > existing then (seqSet seqs (goToLower tableName) newAutoIncVal, none)
  else deepSet env seqs ws tableName newAutoIncVal

/-- A working set as consumed by `DropTable`. -/
structure WorkingSet where
  workingRoot : Root

/-- `DropTable`'s loop over the remaining working sets, raising the counter
in place; an erroring read returns with the map as already mutated. -/
def dropTableScan (tableName : String) : Sequences → List WorkingSet → Sequences × Option String
  | seqs, [] => (seqs, none)
  | seqs, w :: rest =>
    match w.workingRoot.getTableInsensitive tableName with
    | .error e => (seqs, some e)
    | .ok none => dropTableScan tableName seqs rest
    | .ok (some table) =>
      match table.getSchema with
      | .error e => (seqs, some e)
      | .ok sch =>
        if sch.hasAutoIncrement then
          match table.getAutoIncrementValue with
          | .error e => (seqs, some e)
          | .ok seq =>
            if seq > seqGet seqs tableName then
              dropTableScan tableName (seqSet seqs tableName seq) rest
            else dropTableScan tableName seqs rest
        else dropTableScan tableName seqs rest

/-- Embeds `AutoIncrementTracker.DropTable`: reset the lowercased table's
sequence to 1, then raise it from each remaining working set. -/
def DropTable (seqs : Sequences) (tableName : String) (wses : List WorkingSet) :
    Sequences × Option String :=
  let tableName := goToLower tableName
  dropTableScan tableName (seqSet seqs tableName 1) wses

/-! ## Comparator companions: result projection, NaN-freedom, precedence rank -/

/-- The comparator's integer result (0 for the unreachable error branch). -/
def cmpv (a b : Value) : Int :=
  match compareJSON a b with
  | .ok c => c
  | .error _ => 0

mutual

/-- No NaN float occurs anywhere in the value. -/
def NaNFree : Value → Bool
  | .null => true
  | .bool _ => true
  | .float x => x.isSome
  | .str _ => true
  | .list xs => listNaNFree xs
  | .map es => pairsNaNFree es
termination_by v => sizeOf v

/-- `NaNFree` over a list of values. -/
def listNaNFree : List Value → Bool
  | [] => true
  | x :: xs => NaNFree x && listNaNFree xs
termination_by xs => sizeOf xs

/-- `NaNFree` over object entries. -/
def pairsNaNFree : List (String × Value) → Bool
  | [] => true
  | (_, v) :: es => NaNFree v && pairsNaNFree es
termination_by es => sizeOf es

end

/-- The precedence rank the comparator realizes on non-null kinds. -/
def rank : Value → Nat
  | .null => 0
  | .float _ => 1
  | .str _ => 2
  | .map _ => 3
  | .list _ => 4
  | .bool _ => 5

/-- Object entries as the flat value list `[key₁, value₁, key₂, value₂, …]`:
`pairsLess` coincides with `listLess` on this flattening. -/
def flattenPairs : List (String × Value) → List Value
  | [] => []
  | (k, v) :: rest => .str k :: v :: flattenPairs rest

/-! ## Construction maxima and collaborator health (stated from claim C7) -/

/-- The persisted value of one enumerated table, read off its oracle (0 when
the read errors; the C7 hypotheses rule errors out). -/
def entryVal (e : TableEntry) : Nat :=
  match e.table.getAutoIncrementValue with
  | .ok v => v
  | .error _ => 0

/-- Whether the constructor's reads on one enumerated table succeed: the
persisted value is only read behind an AUTO_INCREMENT column. -/
def tableEntryOk (e : TableEntry) : Bool :=
  !e.sch.hasAutoIncrement ||
    (match e.table.getAutoIncrementValue with
     | .ok _ => true
     | .error _ => false)

/-- Whether a rootish resolves and all its enumerated tables read cleanly. -/
def rootOk (r : Rootish) : Bool :=
  match r.resolveRootValue with
  | .error _ => false
  | .ok root => root.iterEntries.all tableEntryOk

/-- Whether every supplied root scans cleanly. -/
def rootsOk (roots : List Rootish) : Bool := roots.all rootOk

/-- Stated from the claim: the maximum persisted AUTO_INCREMENT value for
lowercased name `t` among the enumerated tables whose schema has an
AUTO_INCREMENT column. -/
def tablesMax (t : String) : List TableEntry → Nat
  | [] => 0
  | e :: rest =>
    if e.sch.hasAutoIncrement = true ∧ goToLower e.name = t then
      max (entryVal e) (tablesMax t rest)
    else tablesMax t rest

/-- Stated from the claim: the maximum of `tablesMax` over all supplied
roots. -/
def rootsMax (t : String) : List Rootish → Nat
  | [] => 0
  | r :: rest =>
    max
      (match r.resolveRootValue with
       | .ok root => tablesMax t root.iterEntries
       | .error _ => 0)
      (rootsMax t rest)

/-- Componentwise decidable equality for `Except`, used to evaluate the
embedding at concrete inputs. -/
def exceptDecEq {ε α : Type} [DecidableEq ε] [DecidableEq α] : DecidableEq (Except ε α)
  | .error e, .error f =>
    if h : e = f then .isTrue (by rw [h])
    else .isFalse (by intro hh; injection hh; contradiction)
  | .error _, .ok _ => .isFalse (by intro hh; injection hh)
  | .ok _, .error _ => .isFalse (by intro hh; injection hh)
  | .ok a, .ok b =>
    if h : a = b then .isTrue (by rw [h])
    else .isFalse (by intro hh; injection hh; contradiction)

instance {ε α : Type} [DecidableEq ε] [DecidableEq α] : DecidableEq (Except ε α) :=
  exceptDecEq

/-! ## Map lemmas -/

theorem seqGet_seqSet_same (s : Sequences) (k : String) (v : Nat) :
    seqGet (seqSet s k v) k = v := by
  induction s with
  | nil => simp [seqSet, seqGet]
  | cons hd tl ih =>
    obtain ⟨k', v'⟩ := hd
    by_cases h : k' = k
    · subst h; simp [seqSet, seqGet]
    · simp only [seqSet, if_neg h]
      simpa [seqGet, List.lookup, show (k == k') = false by simpa using Ne.symm h] using ih

theorem seqGet_seqSet_ne (s : Sequences) (k k2 : String) (v : Nat) (h : k ≠ k2) :
    seqGet (seqSet s k v) k2 = seqGet s k2 := by
  induction s with
  | nil => simp [seqSet, seqGet, List.lookup, show (k2 == k) = false by simpa using Ne.symm h]
  | cons hd tl ih =>
    obtain ⟨k', v'⟩ := hd
    by_cases hk : k' = k
    · subst hk
      simp [seqSet, seqGet, List.lookup, show (k2 == k') = false by simpa using Ne.symm h]
    · simp only [seqSet, if_neg hk]
      by_cases h2 : k2 = k'
      · subst h2; simp [seqGet, List.lookup]
      · simpa [seqGet, List.lookup, show (k2 == k') = false by simpa using h2] using ih

theorem seqGet_eq_zero_of_not_mem (s : Sequences) (k : String)
    (h : seqMem s k = false) : seqGet s k = 0 := by
  unfold seqMem at h
  unfold seqGet
  cases hl : s.lookup k with
  | none => rfl
  | some v => rw [hl] at h; simp at h

/-! ## Claim C6: JSON document length -/

/-- C6: `Len` returns 1 for every JSON document, the empty document and
populated documents (array and object inner values included) alike. -/
theorem c6_len_always_one :
    (∀ d : JSONDoc, d.Len = 1) ∧ EmptyJSONDoc.Len = 1 ∧
      (∀ v : Value, (NewJSONDoc v).Len = 1) :=
  ⟨fun _ => rfl, rfl, fun _ => rfl⟩

/-! ## Claim C2: Empty versus the element count -/

/-- C2 evaluation: the empty document has envelope count 0, yet `Empty`
returns false on it — `Empty` is `Len() == 0` and `Len` is the constant 1 —
so `Empty` is not "true iff the count is 0".  On populated documents `Empty`
returns false as the claim expects. -/
theorem c2_empty_eval :
    JSONDoc.count EmptyJSONDoc = 0 ∧
      JSONDoc.Empty EmptyJSONDoc = false ∧
      (∀ v : Value, JSONDoc.Empty (NewJSONDoc v) = false) :=
  ⟨rfl, rfl, fun _ => rfl⟩

/-! ## Claim C1: the cross-kind precedence ladder -/

/-- C1 counterexample: with `B = true`, `A = [1]`, `O = {"k":1}` (the spec's
S2 values), the comparator returns +1 for `Compare(B, A)` and `Compare(A, O)`,
not the -1 the claim asserts. -/
theorem c1_counterexample :
    compareJSON (.bool true) (.list [.float (some 1)]) = .ok 1 ∧
      compareJSON (.bool true) (.list [.float (some 1)]) ≠ .ok (-1) ∧
      compareJSON (.list [.float (some 1)]) (.map [("k", .float (some 1))]) = .ok 1 ∧
      compareJSON (.list [.float (some 1)]) (.map [("k", .float (some 1))]) ≠ .ok (-1) := by
  refine ⟨?_, ?_, ?_, ?_⟩ <;>
    simp [compareJSON, compareJSONBool, compareJSONArray, Value.isNull]

/-- C1 amended: the comparator's ladder places Bool above Array and Array
above Object (`Null < Number/String < Object < Array < Bool`): for every Bool
`b`, array `a` and object `o`, `compareJSON(b, a) = +1`,
`compareJSON(a, b) = -1`, `compareJSON(a, o) = +1`, `compareJSON(o, a) = -1`,
and `compareJSON(Null, b) = -1` as claimed. -/
theorem c1_precedence_amended (b : Bool) (xs : List Value) (es : List (String × Value)) :
    compareJSON (.bool b) (.list xs) = .ok 1 ∧
      compareJSON (.list xs) (.bool b) = .ok (-1) ∧
      compareJSON (.list xs) (.map es) = .ok 1 ∧
      compareJSON (.map es) (.list xs) = .ok (-1) ∧
      compareJSON .null (.bool b) = .ok (-1) := by
  refine ⟨?_, ?_, ?_, ?_, ?_⟩ <;>
    simp [compareJSON, compareJSONBool, compareJSONArray, compareJSONObject, Value.isNull]

/-! ## Claim C9: Number strictly below String -/

/-- C9: the implementation fixes the Number-vs-String order the spec leaves
open: every Number (NaN included) is strictly below every String. -/
theorem c9_number_below_string (x : Option ℚ) (s : String) :
    compareJSON (.float x) (.str s) = .ok (-1) ∧
      compareJSON (.str s) (.float x) = .ok 1 := by
  constructor <;>
    simp [compareJSON, compareJSONNumber, compareJSONString, Value.isNull]

/-! ## Claim C4: the three branches of Next -/

/-- C4: `Next` follows the three-branch rule.  With `curr` the table's
counter: a coerced value of 0 (NULL or zero) returns `curr` and advances the
counter to `curr + 1`; a coerced `g ≥ curr` returns `g` and advances the
counter to `g + 1`; a coerced `g < curr` returns `g` and leaves the map
untouched.  Counter arithmetic is uint64, i.e. taken mod 2^64. -/
theorem c4_next_three_branches (seqs : Sequences) (tbl : String) (v : InsertVal) :
    (CoerceAutoIncrementValue v = .ok 0 →
      ∃ s', Next seqs tbl v = .ok (seqGet seqs (goToLower tbl), s') ∧
        seqGet s' (goToLower tbl) = (seqGet seqs (goToLower tbl) + 1) % u64Mod) ∧
    (∀ g, CoerceAutoIncrementValue v = .ok g → g ≠ 0 → seqGet seqs (goToLower tbl) ≤ g →
      ∃ s', Next seqs tbl v = .ok (g, s') ∧
        seqGet s' (goToLower tbl) = (g + 1) % u64Mod) ∧
    (∀ g, CoerceAutoIncrementValue v = .ok g → g ≠ 0 → g < seqGet seqs (goToLower tbl) →
      Next seqs tbl v = .ok (g, seqs)) := by
  refine ⟨?_, ?_, ?_⟩
  · intro h0
    refine ⟨seqSet seqs (goToLower tbl) ((seqGet seqs (goToLower tbl) + 1) % u64Mod), ?_, ?_⟩
    · simp [Next, h0]
    · exact seqGet_seqSet_same ..
  · intro g hg hne hge
    refine ⟨seqSet seqs (goToLower tbl) ((g + 1) % u64Mod), ?_, ?_⟩
    · simp [Next, hg, hne, hge]
    · exact seqGet_seqSet_same ..
  · intro g hg hne hlt
    simp [Next, hg, hne, Nat.not_le.mpr hlt, Nat.not_lt.mpr (Nat.le_of_lt hlt)]

/-- C4 witness at counter 5: NULL generates 5 and advances to 6; 7 catches the
counter up to 8; 3 is returned verbatim and the counter stays. -/
theorem c4_next_three_branches_witness :
    (∃ s', Next [("t", 5)] "t" .nullV = .ok (5, s') ∧ seqGet s' "t" = 6) ∧
    (∃ s', Next [("t", 5)] "t" (.uintV 7) = .ok (7, s') ∧ seqGet s' "t" = 8) ∧
    Next [("t", 5)] "t" (.uintV 3) = .ok (3, [("t", 5)]) := by
  refine ⟨?_, ?_, ?_⟩
  · have h := (c4_next_three_branches [("t", 5)] "t" .nullV).1 (by decide)
    simpa [goToLower, u64Mod] using h
  · have h := (c4_next_three_branches [("t", 5)] "t" (.uintV 7)).2.1 7 (by decide)
      (by decide) (by decide)
    simpa [goToLower, u64Mod] using h
  · exact (c4_next_three_branches [("t", 5)] "t" (.uintV 3)).2.2 3 (by decide)
      (by decide) (by decide)

/-! ## Claim C8: case-insensitive table names -/

/-- C8: every tracker operation lowercases the table name, so names equal up
to ASCII case act on the same counter; concretely, after `AddNewTable "Foo"`,
`Next "foo" 0` returns 1 and `Current "FOO"` returns 2. -/
theorem c8_case_insensitive (s t : String) (h : goToLower s = goToLower t) :
    (∀ seqs v, Next seqs s v = Next seqs t v) ∧
    (∀ seqs, Current seqs s = Current seqs t) ∧
    (∀ seqs, AddNewTable seqs s = AddNewTable seqs t) ∧
    (∀ env seqs ws v, Set env seqs ws s v = Set env seqs ws t v) ∧
    (∀ seqs wses, DropTable seqs s wses = DropTable seqs t wses) ∧
    AddNewTable [] "Foo" = [("foo", 1)] ∧
    Next [("foo", 1)] "foo" (.uintV 0) = .ok (1, [("foo", 2)]) ∧
    Current [("foo", 2)] "FOO" = 2 := by
  refine ⟨?_, ?_, ?_, ?_, ?_, by decide, by decide, by decide⟩
  · intro seqs v; simp only [Next, h]
  · intro seqs; simp only [Current, h]
  · intro seqs; simp only [AddNewTable, h]
  · intro env seqs ws v; simp only [Set, h]
  · intro seqs wses; simp only [DropTable, h]

/-- C8 witness: "T" and "t" drive the same counter. -/
theorem c8_case_insensitive_witness :
    Next [] "T" (.uintV 0) = Next [] "t" (.uintV 0) ∧
      Current [("t", 3)] "T" = Current [("t", 3)] "t" := by
  have h := c8_case_insensitive "T" "t" (by decide)
  exact ⟨h.1 [] (.uintV 0), h.2.1 [("t", 3)]⟩

/-! ## Claim C10: a table never registered starts at 0 -/

/-- C10: for a table with no map entry, the first `Next` with a NULL/zero
value returns 0 (the absent key reads as the zero value) and leaves
`Current = 1`; after `AddNewTable` the first such `Next` returns 1 and leaves
`Current = 2`. -/
theorem c10_fresh_table (seqs : Sequences) (t : String) (v : InsertVal)
    (habs : seqMem seqs (goToLower t) = false)
    (hv : CoerceAutoIncrementValue v = .ok 0) :
    (∃ s', Next seqs t v = .ok (0, s') ∧ Current s' t = 1) ∧
    (∀ v2, CoerceAutoIncrementValue v2 = .ok 0 →
      ∃ s', Next (AddNewTable seqs t) t v2 = .ok (1, s') ∧ Current s' t = 2) := by
  have hz := seqGet_eq_zero_of_not_mem _ _ habs
  have h1 : (1 : ℕ) % u64Mod = 1 := Nat.mod_eq_of_lt (by norm_num [u64Mod])
  have h2 : (2 : ℕ) % u64Mod = 2 := Nat.mod_eq_of_lt (by norm_num [u64Mod])
  constructor
  · refine ⟨seqSet seqs (goToLower t) 1, ?_, ?_⟩
    · simp only [Next, hv, hz]
      simp [h1]
    · simp [Current, seqGet_seqSet_same]
  · intro v2 hv2
    have hadd : AddNewTable seqs t = seqSet seqs (goToLower t) 1 := by
      simp [AddNewTable, habs]
    have hcur : seqGet (seqSet seqs (goToLower t) 1) (goToLower t) = 1 :=
      seqGet_seqSet_same ..
    refine ⟨seqSet (seqSet seqs (goToLower t) 1) (goToLower t) 2, ?_, ?_⟩
    · rw [hadd]
      simp only [Next, hv2, hcur]
      simp [h2]
    · simp [Current, seqGet_seqSet_same]

/-- C10 witness: on the empty tracker, `Next "t" NULL` generates 0, then the
registered path generates 1. -/
theorem c10_fresh_table_witness :
    (∃ s', Next [] "t" .nullV = .ok (0, s') ∧ Current s' "t" = 1) ∧
    (∃ s', Next (AddNewTable [] "t") "t" .nullV = .ok (1, s') ∧ Current s' "t" = 2) := by
  have h := c10_fresh_table [] "t" .nullV (by decide) rfl
  exact ⟨h.1, h.2 .nullV rfl⟩

/-! ## Claim C3: atomicity of Set and DropTable on error -/

/-- C3 counterexample: with the counter for "t" at 10, `DropTable` against a
single working set whose table lookup fails (e.g. a cancelled context)
returns the error, but the in-memory counter has already been reset to 1 —
not the 10 it held before the call. -/
theorem c3_counterexample :
    DropTable [("t", 10)] "t" [⟨⟨[], fun _ => Except.error "context canceled"⟩⟩] =
      ([("t", 1)], some "context canceled") ∧
    ([("t", 1)] : Sequences) ≠ [("t", 10)] := by
  exact ⟨by decide, by decide⟩

/-- C3 amended: `Set` is atomic on error — `deepSet` accumulates the
cross-branch maximum in a local and assigns it to the map only after the scan
completes, so whenever `Set` returns a collaborator error (cancellation
included) the sequences map is exactly what it was before the call.
`DropTable` does not have this property (see the counterexample). -/
theorem c3_set_atomic_on_error (env : DeepSetEnv) (seqs : Sequences) (ws : String)
    (tableName : String) (v : Nat) (e : String)
    (h : (Set env seqs ws tableName v).2 = some e) :
    (Set env seqs ws tableName v).1 = seqs := by
  unfold Set at h ⊢
  dsimp only at h ⊢
  by_cases hgt : v > seqGet seqs (goToLower tableName)
  · rw [if_pos hgt] at h; simp at h
  · rw [if_neg hgt] at h ⊢
    unfold deepSet at h ⊢
    by_cases hg : (!env.dbFound || !env.versioned) = true
    · rw [if_pos hg] at h; simp at h
    · rw [if_neg hg] at h ⊢
      rcases hscan : deepSetScanDbs ws (goToLower tableName) v env.doltdbs with e' | p
      · rfl
      · rw [hscan] at h; simp at h

/-- C3 amended witness: a branch-listing failure during the `deepSet` path of
`Set` surfaces the error and leaves the counter for "t" at its old value 5. -/
theorem c3_set_atomic_on_error_witness :
    (Set ⟨true, true, [⟨Except.error "context canceled", Except.ok []⟩]⟩
        [("t", 5)] "ws" "t" 3).2 = some "context canceled" ∧
    (Set ⟨true, true, [⟨Except.error "context canceled", Except.ok []⟩]⟩
        [("t", 5)] "ws" "t" 3).1 = [("t", 5)] := by
  refine ⟨by decide, c3_set_atomic_on_error _ _ _ _ _ "context canceled" (by decide)⟩

/-! ## Claim C7: construction records the cross-root maximum -/

theorem tablesMax_cons (t : String) (e : TableEntry) (rest : List TableEntry) :
    tablesMax t (e :: rest) =
      if e.sch.hasAutoIncrement = true ∧ goToLower e.name = t then
        max (entryVal e) (tablesMax t rest)
      else tablesMax t rest := rfl

theorem rootsMax_cons (t : String) (r : Rootish) (rest : List Rootish) :
    rootsMax t (r :: rest) =
      max
        (match r.resolveRootValue with
         | .ok root => tablesMax t root.iterEntries
         | .error _ => 0)
        (rootsMax t rest) := rfl

theorem initScanTables_ok (tbls : List TableEntry) :
    ∀ seqs : Sequences, tbls.all tableEntryOk = true →
      ∃ s', initScanTables seqs tbls = .ok s' ∧
        ∀ t : String, seqGet s' t = max (seqGet seqs t) (tablesMax t tbls) := by
  induction tbls with
  | nil =>
    intro seqs _
    exact ⟨seqs, rfl, fun t => by simp [tablesMax]⟩
  | cons e rest ih =>
    intro seqs hok
    rw [List.all_cons, Bool.and_eq_true] at hok
    obtain ⟨he, hrest⟩ := hok
    by_cases hai : e.sch.hasAutoIncrement
    · obtain ⟨v, hv⟩ : ∃ v, e.table.getAutoIncrementValue = .ok v := by
        unfold tableEntryOk at he
        cases hval : e.table.getAutoIncrementValue with
        | ok v => exact ⟨v, rfl⟩
        | error err => rw [hai, hval] at he; simp at he
      have hev : entryVal e = v := by unfold entryVal; rw [hv]
      have hstep : initScanTable seqs e =
          .ok (if v > seqGet seqs (goToLower e.name) then
                seqSet seqs (goToLower e.name) v else seqs) := by
        unfold initScanTable
        rw [hai, hv]
        by_cases hgt : v > seqGet seqs (goToLower e.name) <;> simp [hgt]
      set s1 := if v > seqGet seqs (goToLower e.name) then
          seqSet seqs (goToLower e.name) v else seqs with hs1
      have hget1 : ∀ t : String,
          seqGet s1 t = if goToLower e.name = t then max (seqGet seqs t) v
            else seqGet seqs t := by
        intro t
        by_cases hteq : goToLower e.name = t
        · subst hteq
          rw [if_pos rfl, hs1]
          by_cases hgt : v > seqGet seqs (goToLower e.name)
          · rw [if_pos hgt, seqGet_seqSet_same]
            exact (max_eq_right (Nat.le_of_lt hgt)).symm
          · rw [if_neg hgt]
            exact (max_eq_left (Nat.le_of_not_lt hgt)).symm
        · rw [if_neg hteq, hs1]
          by_cases hgt : v > seqGet seqs (goToLower e.name)
          · rw [if_pos hgt, seqGet_seqSet_ne _ _ _ _ hteq]
          · rw [if_neg hgt]
      obtain ⟨s', hrun, hget⟩ := ih s1 hrest
      refine ⟨s', ?_, ?_⟩
      · unfold initScanTables
        rw [hstep]
        exact hrun
      · intro t
        rw [hget t, hget1 t, tablesMax_cons]
        by_cases hteq : goToLower e.name = t
        · rw [if_pos hteq, if_pos ⟨hai, hteq⟩, hev]
          exact max_assoc _ _ _
        · rw [if_neg hteq, if_neg (fun h => hteq h.2)]
    · have hstep : initScanTable seqs e = .ok seqs := by
        unfold initScanTable
        simp [hai]
      obtain ⟨s', hrun, hget⟩ := ih seqs hrest
      refine ⟨s', ?_, ?_⟩
      · unfold initScanTables
        rw [hstep]
        exact hrun
      · intro t
        rw [hget t, tablesMax_cons, if_neg (fun h => hai h.1)]

theorem initScanRoots_ok (roots : List Rootish) :
    ∀ seqs : Sequences, rootsOk roots = true →
      ∃ s', initScanRoots seqs roots = .ok s' ∧
        ∀ t : String, seqGet s' t = max (seqGet seqs t) (rootsMax t roots) := by
  induction roots with
  | nil =>
    intro seqs _
    exact ⟨seqs, rfl, fun t => by simp [rootsMax]⟩
  | cons r rest ih =>
    intro seqs hok
    rw [rootsOk, List.all_cons, Bool.and_eq_true] at hok
    obtain ⟨hr, hrest⟩ := hok
    obtain ⟨root, hres⟩ : ∃ root, r.resolveRootValue = .ok root := by
      unfold rootOk at hr
      cases hres : r.resolveRootValue with
      | ok root => exact ⟨root, rfl⟩
      | error err => rw [hres] at hr; simp at hr
    have htbl : root.iterEntries.all tableEntryOk = true := by
      unfold rootOk at hr
      rw [hres] at hr
      exact hr
    obtain ⟨s1, hrun1, hget1⟩ := initScanTables_ok root.iterEntries seqs htbl
    obtain ⟨s', hrun, hget⟩ := ih s1 (by unfold rootsOk; exact hrest)
    refine ⟨s', ?_, ?_⟩
    · simp only [initScanRoots, hres, hrun1]
      exact hrun
    · intro t
      rw [hget t, hget1 t, rootsMax_cons, hres]
      exact max_assoc _ _ _

theorem initScanTables_append (xs ys : List TableEntry) :
    ∀ seqs : Sequences,
      initScanTables seqs (xs ++ ys) =
        match initScanTables seqs xs with
        | .error e => .error e
        | .ok s => initScanTables s ys := by
  induction xs with
  | nil => intro seqs; rfl
  | cons e rest ih =>
    intro seqs
    cases hstep : initScanTable seqs e with
    | error err => simp only [List.cons_append, initScanTables, hstep]
    | ok s =>
      simp only [List.cons_append, initScanTables, hstep]
      exact ih s

theorem initScanRoots_append (xs ys : List Rootish) :
    ∀ seqs : Sequences,
      initScanRoots seqs (xs ++ ys) =
        match initScanRoots seqs xs with
        | .error e => .error e
        | .ok s => initScanRoots s ys := by
  induction xs with
  | nil => intro seqs; rfl
  | cons r rest ih =>
    intro seqs
    cases hres : r.resolveRootValue with
    | error err => simp only [List.cons_append, initScanRoots, hres]
    | ok root =>
      cases htb : initScanTables seqs root.iterEntries with
      | error err => simp only [List.cons_append, initScanRoots, hres, htb]
      | ok s =>
        simp only [List.cons_append, initScanRoots, hres, htb]
        exact ih s

/-- C7: when every supplied root scans cleanly, the constructor seeds each
lowercased table name with the maximum persisted AUTO_INCREMENT value over
all roots, counting only tables whose schema has an AUTO_INCREMENT column;
and a root-resolution error or a persisted-value read error aborts
construction with that error. -/
theorem c7_new_tracker_max (dbName : String) :
    (∀ roots : List Rootish, rootsOk roots = true →
      ∃ ait, NewAutoIncrementTracker dbName roots = .ok ait ∧
        ∀ tableName : String,
          Current ait.sequences tableName = rootsMax (goToLower tableName) roots) ∧
    (∀ (pre : List Rootish) (r : Rootish) (post : List Rootish) (e : String),
      rootsOk pre = true → r.resolveRootValue = .error e →
      NewAutoIncrementTracker dbName (pre ++ r :: post) = .error e) ∧
    (∀ (pre : List Rootish) (r : Rootish) (post : List Rootish) root
        (tpre : List TableEntry) (te : TableEntry) (tpost : List TableEntry) (e : String),
      rootsOk pre = true →
      r.resolveRootValue = .ok root →
      root.iterEntries = tpre ++ te :: tpost →
      tpre.all tableEntryOk = true →
      te.sch.hasAutoIncrement = true →
      te.table.getAutoIncrementValue = .error e →
      NewAutoIncrementTracker dbName (pre ++ r :: post) = .error e) := by
  refine ⟨?_, ?_, ?_⟩
  · intro roots hok
    obtain ⟨s', hrun, hget⟩ := initScanRoots_ok roots [] hok
    refine ⟨⟨dbName, s'⟩, ?_, ?_⟩
    · unfold NewAutoIncrementTracker
      rw [hrun]
    · intro tableName
      unfold Current
      rw [hget (goToLower tableName)]
      simp [seqGet]
  · intro pre r post e hpre hr
    obtain ⟨s1, hrun1, _⟩ := initScanRoots_ok pre [] hpre
    unfold NewAutoIncrementTracker
    rw [initScanRoots_append, hrun1]
    simp only [initScanRoots, hr]
  · intro pre r post root tpre te tpost e hpre hr hsplit htpre hai hval
    obtain ⟨s1, hrun1, _⟩ := initScanRoots_ok pre [] hpre
    obtain ⟨s2, hrun2, _⟩ := initScanTables_ok tpre s1 htpre
    have hte : initScanTable s2 te = .error e := by
      unfold initScanTable
      rw [hai, hval]
      simp
    unfold NewAutoIncrementTracker
    rw [initScanRoots_append, hrun1]
    simp only [initScanRoots, hr, hsplit]
    rw [initScanTables_append, hrun2]
    simp only [initScanTables, hte]

/-- C7 witness (the spec's S4 scenario): two roots exposing table "t" with
persisted values 5 and 9; construction succeeds and `Current "t"` is 9; and a
failing third root aborts construction with its error. -/
theorem c7_new_tracker_max_witness :
    (∃ ait,
      NewAutoIncrementTracker "db"
          [⟨Except.ok ⟨[⟨"t", ⟨Except.ok ⟨true⟩, Except.ok 5⟩, ⟨true⟩⟩], fun _ => Except.ok none⟩⟩,
           ⟨Except.ok ⟨[⟨"t", ⟨Except.ok ⟨true⟩, Except.ok 9⟩, ⟨true⟩⟩], fun _ => Except.ok none⟩⟩] =
        .ok ait ∧
      Current ait.sequences "t" = 9) ∧
    NewAutoIncrementTracker "db"
        [⟨Except.ok ⟨[], fun _ => Except.ok none⟩⟩, ⟨Except.error "resolve failed"⟩] =
      .error "resolve failed" := by
  constructor
  · obtain ⟨ait, hmk, hcur⟩ := (c7_new_tracker_max "db").1
      [⟨Except.ok ⟨[⟨"t", ⟨Except.ok ⟨true⟩, Except.ok 5⟩, ⟨true⟩⟩], fun _ => Except.ok none⟩⟩,
       ⟨Except.ok ⟨[⟨"t", ⟨Except.ok ⟨true⟩, Except.ok 9⟩, ⟨true⟩⟩], fun _ => Except.ok none⟩⟩]
      (by decide)
    refine ⟨ait, hmk, ?_⟩
    rw [hcur "t"]
    decide
  · exact (c7_new_tracker_max "db").2.1 [⟨Except.ok ⟨[], fun _ => Except.ok none⟩⟩]
      ⟨Except.error "resolve failed"⟩ [] "resolve failed" (by decide) rfl


/-! ## Claim C5: totality, antisymmetry and transitivity of the comparator

`cmpv` projects the comparator's integer out of the (never-failing) `Except`;
`NaNFree` carves out the amended claim's carrier. -/

theorem compareJSON_null_left (b : Value) :
    compareJSON .null b = if b.isNull then .ok 0 else .ok (-1) := by
  cases b <;> simp [compareJSON, Value.isNull]

theorem compareJSON_bool_left (x : Bool) (b : Value) :
    compareJSON (.bool x) b = compareJSONBool x b := by
  cases b <;> simp [compareJSON, compareJSONBool, Value.isNull]

theorem compareJSON_float_left (x : Option ℚ) (b : Value) :
    compareJSON (.float x) b = compareJSONNumber x b := by
  cases b <;> simp [compareJSON, compareJSONNumber, Value.isNull]

theorem compareJSON_str_left (s : String) (b : Value) :
    compareJSON (.str s) b = compareJSONString s b := by
  cases b <;> simp [compareJSON, compareJSONString, Value.isNull]

theorem compareJSON_list_left (xs : List Value) (b : Value) :
    compareJSON (.list xs) b = compareJSONArray xs b := by
  cases b <;> simp [compareJSON, compareJSONArray, Value.isNull]

theorem compareJSON_map_left (es : List (String × Value)) (b : Value) :
    compareJSON (.map es) b = compareJSONObject es b := by
  cases b <;> simp [compareJSON, compareJSONObject, Value.isNull]

theorem compareJSON_isOk (a b : Value) : ∃ k, compareJSON a b = .ok k := by
  rcases a with _ | ab | ax | as | axs | aes <;>
    simp only [compareJSON_null_left, compareJSON_bool_left, compareJSON_float_left,
      compareJSON_str_left, compareJSON_list_left, compareJSON_map_left] <;>
    rcases b with _ | bb | bx | bs | bxs | bes <;>
    simp only [compareJSONBool, compareJSONString, compareJSONNumber, compareJSONArray,
      compareJSONObject, Value.isNull] <;>
    first
    | exact ⟨_, rfl⟩
    | (split_ifs <;> exact ⟨_, rfl⟩)

theorem cmp_ok (a b : Value) : compareJSON a b = .ok (cmpv a b) := by
  obtain ⟨k, hk⟩ := compareJSON_isOk a b
  unfold cmpv
  rw [hk]

theorem cmpv_null_null : cmpv .null .null = 0 := by
  simp [cmpv, compareJSON_null_left, Value.isNull]

theorem cmpv_null_left (b : Value) (hb : b.isNull = false) : cmpv .null b = -1 := by
  simp [cmpv, compareJSON_null_left, hb]

theorem cmpv_null_right (a : Value) (ha : a.isNull = false) : cmpv a .null = 1 := by
  rcases a with _ | ab | ax | as | axs | aes <;> simp_all [cmpv, compareJSON_bool_left,
    compareJSON_float_left, compareJSON_str_left, compareJSON_list_left, compareJSON_map_left,
    compareJSONBool, compareJSONString, compareJSONNumber, compareJSONArray, compareJSONObject,
    Value.isNull]

theorem cmpv_bool_bool (x y : Bool) :
    cmpv (.bool x) (.bool y) = if x = y then 0 else if x then 1 else -1 := by
  unfold cmpv
  rw [compareJSON_bool_left]
  simp only [compareJSONBool]
  split_ifs <;> rfl

theorem cmpv_float_float (x y : Option ℚ) :
    cmpv (.float x) (.float y) =
      if floatGt x y then 1 else if floatLt x y then -1 else 0 := by
  unfold cmpv
  rw [compareJSON_float_left]
  simp only [compareJSONNumber]
  split_ifs <;> rfl

theorem cmpv_str_str (s t : String) : cmpv (.str s) (.str t) = stringsCompare s t := by
  unfold cmpv
  rw [compareJSON_str_left]
  simp only [compareJSONString]

theorem cmpv_list_list (xs ys : List Value) :
    cmpv (.list xs) (.list ys) =
      if listLess xs ys then -1 else if listLess ys xs then 1 else 0 := by
  unfold cmpv
  rw [compareJSON_list_left]
  simp only [compareJSONArray]
  split_ifs <;> rfl

theorem cmpv_map_map (es fs : List (String × Value)) :
    cmpv (.map es) (.map fs) =
      if pairsLess es fs then -1 else if pairsLess fs es then 1 else 0 := by
  unfold cmpv
  rw [compareJSON_map_left]
  simp only [compareJSONObject]
  split_ifs <;> rfl

theorem cmpv_cross (a b : Value) (ha : a.isNull = false) (hb : b.isNull = false)
    (h : rank a ≠ rank b) :
    cmpv a b = if rank a < rank b then -1 else 1 := by
  rcases a with _ | ab | ax | as | axs | aes <;>
    rcases b with _ | bb | bx | bs | bxs | bes <;>
    simp_all [cmpv, compareJSON_null_left, compareJSON_bool_left, compareJSON_float_left,
      compareJSON_str_left, compareJSON_list_left, compareJSON_map_left, compareJSONBool,
      compareJSONString, compareJSONNumber, compareJSONArray, compareJSONObject,
      Value.isNull, rank]

/-! ### Antisymmetry -/

theorem stringsCompare_swap (s t : String) : stringsCompare t s = -stringsCompare s t := by
  unfold stringsCompare
  rcases lt_trichotomy s t with h | h | h
  · rw [if_neg (lt_asymm h), if_pos h, if_pos h]
    try norm_num
  · subst h
    simp
  · rw [if_pos h, if_neg (lt_asymm h), if_pos h]
    try norm_num

theorem stringsCompare_eq_zero_iff (s t : String) : stringsCompare s t = 0 ↔ s = t := by
  unfold stringsCompare
  rcases lt_trichotomy s t with h | h | h
  · rw [if_pos h]
    constructor
    · intro hh; exact absurd hh (by norm_num)
    · intro hh; exact absurd hh (ne_of_lt h)
  · subst h
    simp
  · rw [if_neg (lt_asymm h), if_pos h]
    constructor
    · intro hh; exact absurd hh (by norm_num)
    · intro hh; exact absurd hh (ne_of_gt h)

theorem stringsCompare_neg_iff (s t : String) : stringsCompare s t < 0 ↔ s < t := by
  unfold stringsCompare
  rcases lt_trichotomy s t with h | h | h
  · rw [if_pos h]
    norm_num [h]
  · subst h
    simp
  · rw [if_neg (lt_asymm h), if_pos h]
    norm_num [lt_asymm h]

theorem floatGt_some_some (x y : ℚ) : floatGt (some x) (some y) = decide (x > y) := rfl

theorem floatLt_some_some (x y : ℚ) : floatLt (some x) (some y) = decide (x < y) := rfl

theorem listLess_cons (x y : Value) (xs ys : List Value) :
    listLess (x :: xs) (y :: ys) =
      if cmpv x y < 0 then true else if 0 < cmpv x y then false else listLess xs ys := by
  simp only [listLess]
  rw [cmp_ok x y]

theorem pairsLess_cons (k1 k2 : String) (v1 v2 : Value) (es fs : List (String × Value)) :
    pairsLess ((k1, v1) :: es) ((k2, v2) :: fs) =
      if stringsCompare k1 k2 < 0 then true
      else if 0 < stringsCompare k1 k2 then false
      else if cmpv v1 v2 < 0 then true
      else if 0 < cmpv v1 v2 then false
      else pairsLess es fs := by
  simp only [pairsLess]
  rw [cmp_ok v1 v2]

theorem pairsLess_eq_listLess_flatten (es fs : List (String × Value)) :
    pairsLess es fs = listLess (flattenPairs es) (flattenPairs fs) := by
  induction es generalizing fs with
  | nil =>
    cases fs with
    | nil => simp [pairsLess, listLess, flattenPairs]
    | cons q fs' =>
      obtain ⟨k, v⟩ := q
      simp [pairsLess, listLess, flattenPairs]
  | cons p es' ih =>
    obtain ⟨k1, v1⟩ := p
    cases fs with
    | nil => simp [pairsLess, listLess, flattenPairs]
    | cons q fs' =>
      obtain ⟨k2, v2⟩ := q
      rw [pairsLess_cons]
      show _ = listLess (.str k1 :: v1 :: flattenPairs es') (.str k2 :: v2 :: flattenPairs fs')
      rw [listLess_cons, listLess_cons, cmpv_str_str, ih fs']

theorem sizeOf_lt_of_mem_list {u : Value} {xs : List Value} (hu : u ∈ xs) :
    sizeOf u < sizeOf (Value.list xs) := by
  have := List.sizeOf_lt_of_mem hu
  simp only [Value.list.sizeOf_spec]
  omega

theorem sizeOf_lt_of_mem_flattenPairs {u : Value} {es : List (String × Value)}
    (hu : u ∈ flattenPairs es) : sizeOf u < sizeOf (Value.map es) := by
  induction es with
  | nil => simp [flattenPairs] at hu
  | cons p rest ih =>
    obtain ⟨k, v⟩ := p
    simp only [flattenPairs, List.mem_cons] at hu
    rcases hu with h | h | h
    · subst h
      simp only [Value.map.sizeOf_spec, Value.str.sizeOf_spec, List.cons.sizeOf_spec,
        Prod.mk.sizeOf_spec]
      omega
    · subst h
      simp only [Value.map.sizeOf_spec, List.cons.sizeOf_spec, Prod.mk.sizeOf_spec]
      omega
    · have := ih h
      simp only [Value.map.sizeOf_spec, List.cons.sizeOf_spec, Prod.mk.sizeOf_spec] at this ⊢
      omega

theorem listLess_asymm_mem (xs ys : List Value)
    (H : ∀ u ∈ xs, ∀ v ∈ ys, cmpv v u = -cmpv u v)
    (h1 : listLess xs ys = true) : listLess ys xs = false := by
  induction xs generalizing ys with
  | nil =>
    cases ys with
    | nil => simp [listLess] at h1
    | cons y ys' => simp [listLess]
  | cons x xs' ih =>
    cases ys with
    | nil => simp [listLess] at h1
    | cons y ys' =>
      rw [listLess_cons] at h1
      rw [listLess_cons]
      have hxy := H x (by simp) y (by simp)
      rcases lt_trichotomy (cmpv x y) 0 with hc | hc | hc
      · rw [hxy]
        rw [if_neg (by omega), if_pos (by omega)]
      · rw [hxy, hc]
        rw [hc] at h1
        norm_num at h1 ⊢
        exact ih ys' (fun u hu v hv => H u (by simp [hu]) v (by simp [hv])) h1
      · rw [if_neg (by omega), if_pos hc] at h1
        exact absurd h1 (by simp)

theorem listLess_not_both (xs ys : List Value)
    (H : ∀ u ∈ xs, ∀ v ∈ ys, cmpv v u = -cmpv u v) :
    ¬(listLess xs ys = true ∧ listLess ys xs = true) := by
  rintro ⟨h1, h2⟩
  rw [listLess_asymm_mem xs ys H h1] at h2
  exact absurd h2 (by simp)

theorem cmpv_lex_antisym (xs ys : List Value)
    (H : ∀ u ∈ xs, ∀ v ∈ ys, cmpv v u = -cmpv u v) :
    (if listLess ys xs then (-1 : Int) else if listLess xs ys then 1 else 0) =
      -(if listLess xs ys then (-1 : Int) else if listLess ys xs then 1 else 0) := by
  by_cases h1 : listLess xs ys <;> by_cases h2 : listLess ys xs
  · exact absurd ⟨h1, h2⟩ (listLess_not_both xs ys H)
  · simp [h1, h2]
  · simp [h1, h2]
  · simp [h1, h2]

theorem cmpv_antisymm : ∀ (a b : Value), cmpv b a = -cmpv a b := by
  suffices h : ∀ (n : ℕ) (a b : Value), sizeOf a + sizeOf b ≤ n → cmpv b a = -cmpv a b by
    intro a b
    exact h (sizeOf a + sizeOf b) a b le_rfl
  intro n
  induction n using Nat.strong_induction_on with
  | _ n ih =>
  intro a b hsz
  cases a <;> cases b
  case null.null => rw [cmpv_null_null]; norm_num
  case bool.bool ab bb =>
    rw [cmpv_bool_bool, cmpv_bool_bool]
    cases ab <;> cases bb <;> norm_num
  case float.float ax bx =>
    rw [cmpv_float_float, cmpv_float_float]
    rcases ax with _ | q1 <;> rcases bx with _ | q2
    · simp [floatGt, floatLt]
    · simp [floatGt, floatLt]
    · simp [floatGt, floatLt]
    · rcases lt_trichotomy q1 q2 with h | h | h
      · simp [floatGt_some_some, floatLt_some_some, h, lt_asymm h]
      · subst h
        simp [floatGt_some_some, floatLt_some_some, lt_irrefl]
      · simp [floatGt_some_some, floatLt_some_some, h, lt_asymm h]
  case str.str as bs =>
    rw [cmpv_str_str, cmpv_str_str]
    exact stringsCompare_swap as bs
  case list.list axs bxs =>
    have hmem : ∀ u ∈ axs, ∀ v ∈ bxs, cmpv v u = -cmpv u v := by
      intro u hu v hv
      have h1 := sizeOf_lt_of_mem_list hu
      have h2 := sizeOf_lt_of_mem_list hv
      exact ih (sizeOf u + sizeOf v) (by omega) u v le_rfl
    rw [cmpv_list_list, cmpv_list_list]
    exact cmpv_lex_antisym axs bxs hmem
  case map.map aes bes =>
    have hmem : ∀ u ∈ flattenPairs aes, ∀ v ∈ flattenPairs bes, cmpv v u = -cmpv u v := by
      intro u hu v hv
      have h1 := sizeOf_lt_of_mem_flattenPairs hu
      have h2 := sizeOf_lt_of_mem_flattenPairs hv
      exact ih (sizeOf u + sizeOf v) (by omega) u v le_rfl
    rw [cmpv_map_map, cmpv_map_map, pairsLess_eq_listLess_flatten,
      pairsLess_eq_listLess_flatten]
    exact cmpv_lex_antisym (flattenPairs aes) (flattenPairs bes) hmem
  all_goals
    simp [cmpv, compareJSON_null_left, compareJSON_bool_left, compareJSON_float_left,
      compareJSON_str_left, compareJSON_list_left, compareJSON_map_left, compareJSONBool,
      compareJSONString, compareJSONNumber, compareJSONArray, compareJSONObject, Value.isNull]


/-! ### Characterizations and transitivity -/

theorem isNull_eq_true_iff (a : Value) : a.isNull = true ↔ a = .null := by
  cases a <;> simp [Value.isNull]

theorem rank_eq_cases (a b : Value) (h : rank a = rank b) :
    (a = .null ∧ b = .null) ∨
    (∃ x y, a = .float x ∧ b = .float y) ∨
    (∃ s t, a = .str s ∧ b = .str t) ∨
    (∃ es fs, a = .map es ∧ b = .map fs) ∨
    (∃ xs ys, a = .list xs ∧ b = .list ys) ∨
    (∃ x y, a = .bool x ∧ b = .bool y) := by
  cases a <;> cases b <;> simp_all [rank]

theorem cmpv_bool_zero_iff (x y : Bool) : cmpv (.bool x) (.bool y) = 0 ↔ x = y := by
  rw [cmpv_bool_bool]
  cases x <;> cases y <;> norm_num

theorem cmpv_bool_neg_iff (x y : Bool) :
    cmpv (.bool x) (.bool y) < 0 ↔ x = false ∧ y = true := by
  rw [cmpv_bool_bool]
  cases x <;> cases y <;> norm_num

theorem cmpv_float_zero_iff (q1 q2 : ℚ) :
    cmpv (.float (some q1)) (.float (some q2)) = 0 ↔ q1 = q2 := by
  rw [cmpv_float_float]
  rcases lt_trichotomy q1 q2 with h | h | h
  · simp [floatGt_some_some, floatLt_some_some, h, lt_asymm h, ne_of_lt h]
  · subst h
    simp [floatGt_some_some, floatLt_some_some, lt_irrefl]
  · simp [floatGt_some_some, floatLt_some_some, h, lt_asymm h, ne_of_gt h]

theorem cmpv_float_neg_iff (q1 q2 : ℚ) :
    cmpv (.float (some q1)) (.float (some q2)) < 0 ↔ q1 < q2 := by
  rw [cmpv_float_float]
  rcases lt_trichotomy q1 q2 with h | h | h
  · simp [floatGt_some_some, floatLt_some_some, h, lt_asymm h]
  · subst h
    simp [floatGt_some_some, floatLt_some_some, lt_irrefl]
  · simp [floatGt_some_some, floatLt_some_some, h, lt_asymm h]

theorem cmpv_str_zero_iff (s t : String) : cmpv (.str s) (.str t) = 0 ↔ s = t := by
  rw [cmpv_str_str]
  exact stringsCompare_eq_zero_iff s t

theorem cmpv_str_neg_iff (s t : String) : cmpv (.str s) (.str t) < 0 ↔ s < t := by
  rw [cmpv_str_str]
  exact stringsCompare_neg_iff s t

theorem cmpv_list_neg_iff (xs ys : List Value) :
    cmpv (.list xs) (.list ys) < 0 ↔ listLess xs ys = true := by
  rw [cmpv_list_list]
  split_ifs with h1 h2 <;> simp [h1]

theorem cmpv_list_zero (xs ys : List Value) (h : cmpv (.list xs) (.list ys) = 0) :
    listLess xs ys = false ∧ listLess ys xs = false := by
  rw [cmpv_list_list] at h
  by_cases h1 : listLess xs ys
  · rw [if_pos h1] at h
    exact absurd h (by norm_num)
  · by_cases h2 : listLess ys xs
    · rw [if_neg h1, if_pos h2] at h
      exact absurd h (by norm_num)
    · exact ⟨by simp [h1], by simp [h2]⟩

theorem cmpv_map_as_flatten (es fs : List (String × Value)) :
    cmpv (.map es) (.map fs) =
      cmpv (.list (flattenPairs es)) (.list (flattenPairs fs)) := by
  rw [cmpv_map_map, cmpv_list_list, pairsLess_eq_listLess_flatten,
    pairsLess_eq_listLess_flatten]

theorem listLess_both_false (xs : List Value) :
    ∀ ys : List Value, listLess xs ys = false → listLess ys xs = false →
      List.Forall₂ (fun x y => cmpv x y = 0) xs ys := by
  induction xs with
  | nil =>
    intro ys h1 h2
    cases ys with
    | nil => exact List.Forall₂.nil
    | cons y ys' => simp [listLess] at h1
  | cons x xs' ih =>
    intro ys h1 h2
    cases ys with
    | nil => simp [listLess] at h2
    | cons y ys' =>
      rw [listLess_cons] at h1 h2
      have hyx : cmpv y x = -cmpv x y := cmpv_antisymm x y
      rcases lt_trichotomy (cmpv x y) 0 with hc | hc | hc
      · rw [if_pos hc] at h1
        exact absurd h1 (by simp)
      · rw [if_neg (by omega), if_neg (by omega)] at h1
        rw [if_neg (by omega), if_neg (by omega)] at h2
        exact List.Forall₂.cons hc (ih ys' h1 h2)
      · rw [if_pos (by omega)] at h2
        exact absurd h2 (by simp)

theorem listLess_congr_zip {xs ys : List Value}
    (hzip : List.Forall₂ (fun x y => cmpv x y = 0) xs ys) :
    ∀ zs : List Value,
      (∀ x ∈ xs, ∀ y ∈ ys, ∀ z ∈ zs, cmpv x y = 0 → cmpv y z = cmpv x z) →
      listLess ys zs = listLess xs zs ∧ listLess zs ys = listLess zs xs := by
  induction hzip with
  | nil => intro zs H; exact ⟨rfl, rfl⟩
  | @cons x y xs' ys' hxy htail ih =>
    intro zs H
    cases zs with
    | nil =>
      constructor
      · simp [listLess]
      · simp [listLess]
    | cons z zs' =>
      have hyz : cmpv y z = cmpv x z := H x (by simp) y (by simp) z (by simp) hxy
      have hzy : cmpv z y = cmpv z x := by
        rw [cmpv_antisymm y z, cmpv_antisymm x z, hyz]
      obtain ⟨ih1, ih2⟩ := ih zs'
        (fun u hu v hv w hw => H u (by simp [hu]) v (by simp [hv]) w (by simp [hw]))
      constructor
      · rw [listLess_cons, listLess_cons, hyz, ih1]
      · rw [listLess_cons, listLess_cons, hzy, ih2]

theorem listLess_trans_mem :
    ∀ (xs ys zs : List Value),
      (∀ x ∈ xs, ∀ y ∈ ys, ∀ z ∈ zs,
        (cmpv x y < 0 → cmpv y z < 0 → cmpv x z < 0) ∧
        (cmpv x y = 0 → cmpv y z = cmpv x z) ∧
        (cmpv y z = 0 → cmpv z x = cmpv y x)) →
      listLess xs ys = true → listLess ys zs = true → listLess xs zs = true := by
  intro xs
  induction xs with
  | nil =>
    intro ys zs H h1 h2
    cases ys with
    | nil => simp [listLess] at h1
    | cons y ys' =>
      cases zs with
      | nil => simp [listLess] at h2
      | cons z zs' => simp [listLess]
  | cons x xs' ih =>
    intro ys zs H h1 h2
    cases ys with
    | nil => simp [listLess] at h1
    | cons y ys' =>
      cases zs with
      | nil => simp [listLess] at h2
      | cons z zs' =>
        rw [listLess_cons] at h1 h2 ⊢
        obtain ⟨Htr, Hc1, Hc2⟩ := H x (by simp) y (by simp) z (by simp)
        rcases lt_trichotomy (cmpv x y) 0 with hc1 | hc1 | hc1
        · rcases lt_trichotomy (cmpv y z) 0 with hc2 | hc2 | hc2
          · rw [if_pos (Htr hc1 hc2)]
          · have h3 : cmpv z x = cmpv y x := Hc2 hc2
            have h4 : cmpv y x = -cmpv x y := cmpv_antisymm x y
            have h5 : cmpv x z = -cmpv z x := cmpv_antisymm z x
            rw [if_pos (by omega)]
          · rw [if_neg (by omega), if_pos hc2] at h2
            exact absurd h2 (by simp)
        · have h3 : cmpv y z = cmpv x z := Hc1 hc1
          rcases lt_trichotomy (cmpv y z) 0 with hc2 | hc2 | hc2
          · rw [if_pos (by omega)]
          · rw [if_neg (by omega), if_neg (by omega)] at h1
            rw [if_neg (by omega), if_neg (by omega)] at h2
            rw [if_neg (by omega), if_neg (by omega)]
            exact ih ys' zs'
              (fun u hu v hv w hw => H u (by simp [hu]) v (by simp [hv]) w (by simp [hw]))
              h1 h2
          · rw [if_neg (by omega), if_pos hc2] at h2
            exact absurd h2 (by simp)
        · rw [if_neg (by omega), if_pos hc1] at h1
          exact absurd h1 (by simp)

theorem NaNFree_mem_list {xs : List Value} (h : NaNFree (.list xs) = true) :
    ∀ u ∈ xs, NaNFree u = true := by
  rw [NaNFree] at h
  induction xs with
  | nil => intro u hu; simp at hu
  | cons x xs' ih =>
    rw [listNaNFree, Bool.and_eq_true] at h
    intro u hu
    rcases List.mem_cons.mp hu with h1 | h1
    · subst h1; exact h.1
    · exact ih h.2 u h1

theorem NaNFree_mem_flatten {es : List (String × Value)} (h : NaNFree (.map es) = true) :
    ∀ u ∈ flattenPairs es, NaNFree u = true := by
  rw [NaNFree] at h
  induction es with
  | nil => intro u hu; simp [flattenPairs] at hu
  | cons p rest ih =>
    obtain ⟨k, v⟩ := p
    rw [pairsNaNFree, Bool.and_eq_true] at h
    intro u hu
    simp only [flattenPairs, List.mem_cons] at hu
    rcases hu with h1 | h1 | h1
    · subst h1; rw [NaNFree]
    · subst h1; exact h.1
    · exact ih h.2 u h1


theorem rank_float_cases (x : Option ℚ) (c : Value) (h : rank (.float x) = rank c) :
    ∃ y, c = .float y := by
  cases c <;> simp_all [rank]

theorem rank_str_cases (s : String) (c : Value) (h : rank (.str s) = rank c) :
    ∃ t, c = .str t := by
  cases c <;> simp_all [rank]

theorem rank_list_cases (xs : List Value) (c : Value) (h : rank (.list xs) = rank c) :
    ∃ zs, c = .list zs := by
  cases c <;> simp_all [rank]

theorem rank_map_cases (es : List (String × Value)) (c : Value) (h : rank (.map es) = rank c) :
    ∃ gs, c = .map gs := by
  cases c <;> simp_all [rank]

theorem rank_bool_cases (x : Bool) (c : Value) (h : rank (.bool x) = rank c) :
    ∃ z, c = .bool z := by
  cases c <;> simp_all [rank]

theorem cmpv_congr_trans :
    ∀ (a b c : Value), NaNFree a = true → NaNFree b = true → NaNFree c = true →
      (cmpv a b = 0 → cmpv b c = cmpv a c) ∧
      (cmpv a b < 0 → cmpv b c < 0 → cmpv a c < 0) := by
  suffices h : ∀ (n : ℕ) (a b c : Value), sizeOf a + sizeOf b + sizeOf c ≤ n →
      NaNFree a = true → NaNFree b = true → NaNFree c = true →
      (cmpv a b = 0 → cmpv b c = cmpv a c) ∧
      (cmpv a b < 0 → cmpv b c < 0 → cmpv a c < 0) by
    intro a b c
    exact h (sizeOf a + sizeOf b + sizeOf c) a b c le_rfl
  intro n
  induction n using Nat.strong_induction_on with
  | _ n ih =>
  intro a b c hsz ha hb hc
  by_cases han : a.isNull
  · rw [isNull_eq_true_iff] at han
    subst han
    by_cases hbn : b.isNull
    · rw [isNull_eq_true_iff] at hbn
      subst hbn
      exact ⟨fun _ => rfl, fun h1 _ => absurd h1 (by rw [cmpv_null_null]; norm_num)⟩
    · have hbn' : b.isNull = false := by simpa using hbn
      constructor
      · intro h0
        rw [cmpv_null_left b hbn'] at h0
        exact absurd h0 (by norm_num)
      · intro _ h2
        by_cases hcn : c.isNull
        · rw [isNull_eq_true_iff] at hcn
          subst hcn
          rw [cmpv_null_right b hbn'] at h2
          exact absurd h2 (by norm_num)
        · rw [cmpv_null_left c (by simpa using hcn)]
          norm_num
  · have han' : a.isNull = false := by simpa using han
    by_cases hbn : b.isNull
    · rw [isNull_eq_true_iff] at hbn
      subst hbn
      have h1 : cmpv a .null = 1 := cmpv_null_right a han'
      constructor
      · intro h0
        rw [h1] at h0
        exact absurd h0 (by norm_num)
      · intro h2 _
        rw [h1] at h2
        exact absurd h2 (by norm_num)
    · have hbn' : b.isNull = false := by simpa using hbn
      by_cases hcn : c.isNull
      · rw [isNull_eq_true_iff] at hcn
        subst hcn
        constructor
        · intro h0
          rw [cmpv_null_right b hbn', cmpv_null_right a han']
        · intro _ h2
          rw [cmpv_null_right b hbn'] at h2
          exact absurd h2 (by norm_num)
      · have hcn' : c.isNull = false := by simpa using hcn
        by_cases hr1 : rank a = rank b
        · by_cases hr2 : rank b = rank c
          · -- all three in the same family
            rcases rank_eq_cases a b hr1 with ⟨rfl, rfl⟩ | ⟨x, y, rfl, rfl⟩ |
              ⟨s, t, rfl, rfl⟩ | ⟨es, fs, rfl, rfl⟩ | ⟨xs, ys, rfl, rfl⟩ | ⟨x, y, rfl, rfl⟩
            · simp [Value.isNull] at han'
            · -- floats
              obtain ⟨z, rfl⟩ := rank_float_cases y c hr2
              rw [NaNFree] at ha hb hc
              cases x with
              | none => simp at ha
              | some q1 =>
                cases y with
                | none => simp at hb
                | some q2 =>
                  cases z with
                  | none => simp at hc
                  | some q3 =>
                    constructor
                    · intro h0
                      have := (cmpv_float_zero_iff q1 q2).mp h0
                      subst this
                      rfl
                    · intro h1 h2
                      exact (cmpv_float_neg_iff q1 q3).mpr
                        (lt_trans ((cmpv_float_neg_iff q1 q2).mp h1)
                          ((cmpv_float_neg_iff q2 q3).mp h2))
            · -- strings
              obtain ⟨u, rfl⟩ := rank_str_cases t c hr2
              constructor
              · intro h0
                have := (cmpv_str_zero_iff s t).mp h0
                subst this
                rfl
              · intro h1 h2
                exact (cmpv_str_neg_iff s u).mpr
                  (lt_trans ((cmpv_str_neg_iff s t).mp h1) ((cmpv_str_neg_iff t u).mp h2))
            · -- objects, through the flattened entry lists
              obtain ⟨gs, rfl⟩ := rank_map_cases fs c hr2
              have H3 : ∀ x ∈ flattenPairs es, ∀ y ∈ flattenPairs fs, ∀ z ∈ flattenPairs gs,
                  (cmpv x y < 0 → cmpv y z < 0 → cmpv x z < 0) ∧
                  (cmpv x y = 0 → cmpv y z = cmpv x z) ∧
                  (cmpv y z = 0 → cmpv z x = cmpv y x) := by
                intro x hx y hy z hz
                have s1 := sizeOf_lt_of_mem_flattenPairs hx
                have s2 := sizeOf_lt_of_mem_flattenPairs hy
                have s3 := sizeOf_lt_of_mem_flattenPairs hz
                have n1 := NaNFree_mem_flatten ha x hx
                have n2 := NaNFree_mem_flatten hb y hy
                have n3 := NaNFree_mem_flatten hc z hz
                have p1 := ih (sizeOf x + sizeOf y + sizeOf z) (by omega) x y z le_rfl n1 n2 n3
                have p2 := ih (sizeOf y + sizeOf z + sizeOf x) (by omega) y z x le_rfl n2 n3 n1
                exact ⟨p1.2, p1.1, p2.1⟩
              constructor
              · intro h0
                rw [cmpv_map_as_flatten] at h0
                obtain ⟨hf1, hf2⟩ := cmpv_list_zero _ _ h0
                have hzip := listLess_both_false _ _ hf1 hf2
                obtain ⟨e1, e2⟩ := listLess_congr_zip hzip (flattenPairs gs)
                  (fun x hx y hy z hz => (H3 x hx y hy z hz).2.1)
                rw [cmpv_map_as_flatten, cmpv_map_as_flatten, cmpv_list_list,
                  cmpv_list_list, e1, e2]
              · intro h1 h2
                rw [cmpv_map_as_flatten] at h1 h2 ⊢
                exact (cmpv_list_neg_iff _ _).mpr
                  (listLess_trans_mem _ _ _ H3 ((cmpv_list_neg_iff _ _).mp h1)
                    ((cmpv_list_neg_iff _ _).mp h2))
            · -- arrays
              obtain ⟨zs, rfl⟩ := rank_list_cases ys c hr2
              have H3 : ∀ x ∈ xs, ∀ y ∈ ys, ∀ z ∈ zs,
                  (cmpv x y < 0 → cmpv y z < 0 → cmpv x z < 0) ∧
                  (cmpv x y = 0 → cmpv y z = cmpv x z) ∧
                  (cmpv y z = 0 → cmpv z x = cmpv y x) := by
                intro x hx y hy z hz
                have s1 := sizeOf_lt_of_mem_list hx
                have s2 := sizeOf_lt_of_mem_list hy
                have s3 := sizeOf_lt_of_mem_list hz
                have n1 := NaNFree_mem_list ha x hx
                have n2 := NaNFree_mem_list hb y hy
                have n3 := NaNFree_mem_list hc z hz
                have p1 := ih (sizeOf x + sizeOf y + sizeOf z) (by omega) x y z le_rfl n1 n2 n3
                have p2 := ih (sizeOf y + sizeOf z + sizeOf x) (by omega) y z x le_rfl n2 n3 n1
                exact ⟨p1.2, p1.1, p2.1⟩
              constructor
              · intro h0
                obtain ⟨hf1, hf2⟩ := cmpv_list_zero _ _ h0
                have hzip := listLess_both_false _ _ hf1 hf2
                obtain ⟨e1, e2⟩ := listLess_congr_zip hzip zs
                  (fun x hx y hy z hz => (H3 x hx y hy z hz).2.1)
                rw [cmpv_list_list, cmpv_list_list, e1, e2]
              · intro h1 h2
                exact (cmpv_list_neg_iff _ _).mpr
                  (listLess_trans_mem _ _ _ H3 ((cmpv_list_neg_iff _ _).mp h1)
                    ((cmpv_list_neg_iff _ _).mp h2))
            · -- bools
              obtain ⟨z, rfl⟩ := rank_bool_cases y c hr2
              constructor
              · intro h0
                have := (cmpv_bool_zero_iff x y).mp h0
                subst this
                rfl
              · intro h1 h2
                obtain ⟨_, hy⟩ := (cmpv_bool_neg_iff x y).mp h1
                obtain ⟨hy', _⟩ := (cmpv_bool_neg_iff y z).mp h2
                rw [hy] at hy'
                exact absurd hy' (by simp)
          · -- a,b share a rank, c differs
            have hcb := cmpv_cross b c hbn' hcn' hr2
            have hca := cmpv_cross a c han' hcn' (by rw [hr1]; exact hr2)
            constructor
            · intro _
              rw [hcb, hca, hr1]
            · intro _ h2
              rw [hcb] at h2
              rw [hca]
              by_cases hh : rank b < rank c
              · rw [if_pos (by omega)]
                norm_num
              · rw [if_neg hh] at h2
                exact absurd h2 (by norm_num)
        · -- rank a ≠ rank b
          have hab := cmpv_cross a b han' hbn' hr1
          constructor
          · intro h0
            rw [hab] at h0
            split_ifs at h0
            exact absurd h0 (by norm_num)
          · intro h1 h2
            rw [hab] at h1
            have hr1lt : rank a < rank b := by
              by_contra hno
              rw [if_neg hno] at h1
              exact absurd h1 (by norm_num)
            by_cases hr2 : rank b = rank c
            · rw [cmpv_cross a c han' hcn' (by omega), if_pos (by omega)]
              norm_num
            · rw [cmpv_cross b c hbn' hcn' hr2] at h2
              have hr2lt : rank b < rank c := by
                by_contra hno
                rw [if_neg hno] at h2
                exact absurd h2 (by norm_num)
              rw [cmpv_cross a c han' hcn' (by omega), if_pos (by omega)]
              norm_num


/-- C5 counterexample: with the legal JSON values a = 7.0, b = NaN, c = 5.0
(the claim explicitly includes NaN floats), `compareJSON(a,b) = 0 ≤ 0` and
`compareJSON(b,c) = 0 ≤ 0` — a NaN operand makes Go's `<` and `>` both false —
yet `compareJSON(a,c) = 1 > 0`, so the comparator is not transitive as
claimed. -/
theorem c5_counterexample :
    compareJSON (.float (some 7)) (.float none) = .ok 0 ∧
      compareJSON (.float none) (.float (some 5)) = .ok 0 ∧
      compareJSON (.float (some 7)) (.float (some 5)) = .ok 1 ∧
      ¬(1 : Int) ≤ 0 := by
  refine ⟨?_, ?_, ?_, by norm_num⟩ <;>
    norm_num [compareJSON_float_left, compareJSONNumber, floatGt, floatLt]

/-- C5 amended: excluding NaN floats (which compare as equal to everything of
Float kind and so break transitivity), the comparator never errors, satisfies
`compareJSON(a,b) = -compareJSON(b,a)`, and is transitive:
`compareJSON(a,b) ≤ 0` and `compareJSON(b,c) ≤ 0` imply
`compareJSON(a,c) ≤ 0`.  (Totality and antisymmetry in fact need no NaN
hypothesis.) -/
theorem c5_total_antisym_trans (a b c : Value)
    (ha : NaNFree a = true) (hb : NaNFree b = true) (hc : NaNFree c = true) :
    (∃ k, compareJSON a b = .ok k) ∧
    (∀ j, compareJSON a b = .ok j → compareJSON b a = .ok (-j)) ∧
    (∀ j k, compareJSON a b = .ok j → j ≤ 0 → compareJSON b c = .ok k → k ≤ 0 →
      ∃ m, compareJSON a c = .ok m ∧ m ≤ 0) := by
  refine ⟨⟨cmpv a b, cmp_ok a b⟩, ?_, ?_⟩
  · intro j hj
    rw [cmp_ok a b] at hj
    injection hj with hj
    subst hj
    rw [cmp_ok b a, cmpv_antisymm a b]
  · intro j k hj hj0 hk hk0
    rw [cmp_ok a b] at hj
    injection hj with hj
    rw [cmp_ok b c] at hk
    injection hk with hk
    subst hj
    subst hk
    refine ⟨cmpv a c, cmp_ok a c, ?_⟩
    rcases lt_or_eq_of_le hj0 with hlt | heq
    · rcases lt_or_eq_of_le hk0 with hlt2 | heq2
      · exact le_of_lt ((cmpv_congr_trans a b c ha hb hc).2 hlt hlt2)
      · have h3 := (cmpv_congr_trans b c a hb hc ha).1 heq2
        have h4 := cmpv_antisymm c a
        have h5 := cmpv_antisymm b a
        have h6 := cmpv_antisymm a b
        omega
    · have h3 := (cmpv_congr_trans a b c ha hb hc).1 heq
      omega

/-- C5 amended witness at 1.0, "a", {"k": false}: all three NaN-free, the
pairwise comparisons are ≤ 0, so the theorem yields `compareJSON` ≤ 0 on the
outer pair. -/
theorem c5_total_antisym_trans_witness :
    (∃ k, compareJSON (.float (some 1)) (.str "a") = .ok k) ∧
      compareJSON (.str "a") (.float (some 1)) = .ok (-(-1)) ∧
      (∃ m, compareJSON (.float (some 1)) (.map [("k", .bool false)]) = .ok m ∧ m ≤ 0) := by
  obtain ⟨h1, h2, h3⟩ := c5_total_antisym_trans (.float (some 1)) (.str "a")
    (.map [("k", .bool false)])
    (by simp [NaNFree]) (by simp [NaNFree]) (by simp [NaNFree, pairsNaNFree])
  have hj : compareJSON (.float (some 1)) (.str "a") = .ok (-1) := by
    simp [compareJSON_float_left, compareJSONNumber]
  have hk : compareJSON (.str "a") (.map [("k", .bool false)]) = .ok (-1) := by
    simp [compareJSON_str_left, compareJSONString]
  exact ⟨h1, h2 (-1) hj, h3 (-1) (-1) hj (by norm_num) hk (by norm_num)⟩


end DoltSpec
